import Mathlib

/-!
# Verification of the AHP engine (`ahpCalculations.js`)

Shallow embedding of the repository's Analytic Hierarchy Process module:
`buildComparisonMatrix`, `calculateWeights`, `calculateLambdaMax`,
`calculateCI`, `calculateConsistencyRatio`, `isConsistent` and
`calculateAHPWeights`.

Modelling conventions:
* JS numbers are modelled as real numbers (`ℝ`); the judgment values supplied
  by the caller are modelled as rationals (`ℚ`) so that the matrix builder —
  which only ever forms `1`, `v` and `1 / v` — stays exact and executable,
  and is cast into `ℝ` where the weight computation (which needs real
  exponentiation, for `Math.pow(product, 1 / n)`) takes over.
* A JS object used as a map (`comparisons`) is modelled as an association
  list `List (String × ℚ)`; `comparisons[key]` is `List.lookup`.
  The JS truthiness test `if (comparisons[key])` is falsy both when the key
  is absent and when the stored value is `0`; `truthyLookup` captures this.
* The imperative double loop of `buildComparisonMatrix` visits each
  unordered pair `(i, j)` with `i < j` exactly once and writes the two cells
  `(i, j)` and `(j, i)`; it is embedded as a fold of that write step over the
  list of upper-triangle index pairs, starting from the all-ones matrix
  (`Array(n).fill(0).map(() => Array(n).fill(1))`).
* `matrix[i][j]` reads are `(m.getD i []).getD j 0` (out-of-range reads never
  occur on the paths the theorems speak about).
-/

/-- `${a}-${b}`, the key template used by `buildComparisonMatrix`. -/
def pairKey (a b : String) : String := a ++ "-" ++ b

/-- JS truthiness of `comparisons[key]`: `some v` when the key is present
with a non-zero value, `none` when the key is absent or its value is `0`
(`0` is falsy in JS). -/
def truthyLookup (comparisons : List (String × ℚ)) (key : String) : Option ℚ :=
  match comparisons.lookup key with
  | some v => if v = 0 then none else some v
  | none => none

/-- Read access `matrix[i][j]` for the rational matrix. -/
def entQ (m : List (List ℚ)) (i j : ℕ) : ℚ := (m.getD i []).getD j 0

/-- Read access `matrix[i][j]` for the real matrix. -/
def ent (m : List (List ℝ)) (i j : ℕ) : ℝ := (m.getD i []).getD j 0

/-- In-place style write `matrix[i][j] = v` on a list-of-lists matrix. -/
def setEntry (m : List (List ℚ)) (i j : ℕ) (v : ℚ) : List (List ℚ) :=
  m.set i ((m.getD i []).set j v)

/-- The body of the double loop of `buildComparisonMatrix` for one
upper-triangle pair `(i, j)`:

```js
const key = `${criteria[i]}-${criteria[j]}`
const reverseKey = `${criteria[j]}-${criteria[i]}`
if (comparisons[key]) {
  matrix[i][j] = comparisons[key]
  matrix[j][i] = 1 / comparisons[key]
} else if (comparisons[reverseKey]) {
  matrix[j][i] = comparisons[reverseKey]
  matrix[i][j] = 1 / comparisons[reverseKey]
} else {
  matrix[i][j] = 1
  matrix[j][i] = 1
}
```
-/
def fillPair (comparisons : List (String × ℚ)) (criteria : List String)
    (m : List (List ℚ)) (i j : ℕ) : List (List ℚ) :=
  let key := pairKey (criteria.getD i "") (criteria.getD j "")
  let reverseKey := pairKey (criteria.getD j "") (criteria.getD i "")
  match truthyLookup comparisons key with
  | some v => setEntry (setEntry m i j v) j i (1 / v)
  | none =>
    match truthyLookup comparisons reverseKey with
    | some w => setEntry (setEntry m j i w) i j (1 / w)
    | none => setEntry (setEntry m i j 1) j i 1

/-- The index pairs visited by
`for (let i = 0; i < n; i++) for (let j = i + 1; j < n; j++)`. -/
def upperPairs (n : ℕ) : List (ℕ × ℕ) :=
  (List.range n).flatMap fun i => (List.range' (i + 1) (n - (i + 1))).map fun j => (i, j)

/-- `buildComparisonMatrix(criteria, comparisons)`: start from the all-ones
`n × n` matrix and fill each upper-triangle pair (and its mirror cell) from
the comparisons object. -/
def buildComparisonMatrix (criteria : List String)
    (comparisons : List (String × ℚ)) : List (List ℚ) :=
  let n := criteria.length
  let matrix := List.replicate n (List.replicate n (1 : ℚ))
  (upperPairs n).foldl (fun m p => fillPair comparisons criteria m p.1 p.2) matrix

/-- Cast the (exact, rational) built matrix into the real matrix the
numerical pipeline works on. -/
def toRealMatrix (m : List (List ℚ)) : List (List ℝ) :=
  m.map fun row => row.map fun v : ℚ => (v : ℝ)

/-- `calculateWeights(matrix)`: row geometric means
(`Math.pow(product, 1 / n)`, real exponentiation), then normalization by the
sum (`reduce((acc, w) => acc + w, 0)`). -/
noncomputable def calculateWeights (matrix : List (List ℝ)) : List ℝ :=
  let n := matrix.length
  let weights := (List.range n).map fun i =>
    ((List.range n).foldl (fun product j => product * ent matrix i j) 1) ^ ((1 : ℝ) / (n : ℝ))
  let sum := weights.foldl (fun acc w => acc + w) 0
  weights.map fun w => w / sum

/-- `calculateLambdaMax(matrix, weights)`: `weightedSum = M · w`, then the
average of `weightedSum[i] / weights[i]`. -/
noncomputable def calculateLambdaMax (matrix : List (List ℝ)) (weights : List ℝ) : ℝ :=
  let n := matrix.length
  let weightedSum := (List.range n).map fun i =>
    (List.range n).foldl (fun acc j => acc + ent matrix i j * weights.getD j 0) 0
  let lambdaMax := (List.range n).foldl
    (fun acc i => acc + weightedSum.getD i 0 / weights.getD i 0) 0
  lambdaMax / n

/-- `calculateCI(lambdaMax, n) = (lambdaMax - n) / (n - 1)`. -/
noncomputable def calculateCI (lambdaMax : ℝ) (n : ℕ) : ℝ :=
  (lambdaMax - n) / ((n : ℝ) - 1)

/-- The `RANDOM_INDEX` table (an object literal keyed by 1..10; absent keys
give `undefined`, modelled as `none`). -/
noncomputable def RANDOM_INDEX (n : ℕ) : Option ℝ :=
  if n = 1 then some 0
  else if n = 2 then some 0
  else if n = 3 then some 0.58
  else if n = 4 then some 0.90
  else if n = 5 then some 1.12
  else if n = 6 then some 1.24
  else if n = 7 then some 1.32
  else if n = 8 then some 1.41
  else if n = 9 then some 1.45
  else if n = 10 then some 1.49
  else none

/-- `RANDOM_INDEX[n] || 1.49`: the JS `||` falls through to `1.49` both when
the key is absent and when the stored value is `0` (falsy). -/
noncomputable def randomIndexOrDefault (n : ℕ) : ℝ :=
  match RANDOM_INDEX n with
  | some v => if v = 0 then 1.49 else v
  | none => 1.49

/-- `calculateConsistencyRatio(matrix, weights)`: `0` for `n < 3`, otherwise
`CI / RI` with `RI = RANDOM_INDEX[n] || 1.49`. -/
noncomputable def calculateConsistencyRatio (matrix : List (List ℝ))
    (weights : List ℝ) : ℝ :=
  let n := matrix.length
  if n < 3 then 0
  else
    let lambdaMax := calculateLambdaMax matrix weights
    let CI := calculateCI lambdaMax n
    let RI := randomIndexOrDefault n
    CI / RI

/-- `isConsistent(cr) = cr < 0.1`. -/
def isConsistent (cr : ℝ) : Prop := cr < 0.1

/-- The result object of `calculateAHPWeights`. -/
structure AHPResult where
  weights : String → Option ℝ
  consistencyRatio : ℝ
  isConsistent : Prop

/-- The JS object built by
`criteria.forEach((criterion, index) => { weights[criterion] = weightArray[index] })`:
successive property assignments, a later assignment to the same key wins;
reading an absent key gives `undefined` (`none`). -/
def objAssign (pairs : List (String × ℝ)) : String → Option ℝ :=
  pairs.foldl (fun acc p => fun s => if s = p.1 then some p.2 else acc s) (fun _ => none)

/-- `calculateAHPWeights(criteria, comparisons)`. -/
noncomputable def calculateAHPWeights (criteria : List String)
    (comparisons : List (String × ℚ)) : AHPResult :=
  let matrix := toRealMatrix (buildComparisonMatrix criteria comparisons)
  let weightArray := calculateWeights matrix
  let cr := calculateConsistencyRatio matrix weightArray
  { weights := objAssign (criteria.enum.map fun p => (p.2, weightArray.getD p.1 0))
    consistencyRatio := cr
    isConsistent := isConsistent cr }

/-! ## Spec-side definitions

These are written from the specification's own words, to be compared with
the code-derived definitions above. -/

/-- Spec: `gm[i] = (∏_j M[i][j])^(1/n)`, the geometric mean of row `i`. -/
noncomputable def specGeomMean (m : List (List ℝ)) (i : ℕ) : ℝ :=
  (∏ j in Finset.range m.length, ent m i j) ^ ((1 : ℝ) / (m.length : ℝ))

/-- Spec: `λmax = (1/n) * Σ_i (Mw[i] / w[i])` where `Mw[i] = Σ_j M[i][j]·w[j]`. -/
noncomputable def specLambdaMax (m : List (List ℝ)) (w : List ℝ) : ℝ :=
  (1 / (m.length : ℝ)) *
    ∑ i in Finset.range m.length,
      (∑ j in Finset.range m.length, ent m i j * w.getD j 0) / w.getD i 0

/-- Spec: the Random Index table `{3: 0.58, 4: 0.90, 5: 1.12, 6: 1.24,
7: 1.32, 8: 1.41, 9: 1.45, 10: 1.49}`, with `1.49` for every `n > 10`. -/
noncomputable def specRI (n : ℕ) : ℝ :=
  if n = 3 then 0.58
  else if n = 4 then 0.90
  else if n = 5 then 1.12
  else if n = 6 then 1.24
  else if n = 7 then 1.32
  else if n = 8 then 1.41
  else if n = 9 then 1.45
  else 1.49

/-! ## Analysis helpers: the value written into each matrix cell -/

/-- The value the loop body stores into the upper cell `(i, j)` (`i < j`) of
the matrix, as a function of the two criterion names. -/
def fwdVal (comparisons : List (String × ℚ)) (a b : String) : ℚ :=
  match truthyLookup comparisons (pairKey a b) with
  | some v => v
  | none =>
    match truthyLookup comparisons (pairKey b a) with
    | some w => 1 / w
    | none => 1

/-- The value the loop body stores into the mirror cell `(j, i)` (`i < j`). -/
def bwdVal (comparisons : List (String × ℚ)) (a b : String) : ℚ :=
  match truthyLookup comparisons (pairKey a b) with
  | some v => 1 / v
  | none =>
    match truthyLookup comparisons (pairKey b a) with
    | some w => w
    | none => 1

/-- Spec-side: the criteria list reordered by a permutation `σ` of its
positions (position `k` of the new list holds the criterion that was at
position `σ k`). -/
def permuteList (c : List String) (σ : Equiv.Perm (Fin c.length)) : List String :=
  List.ofFn fun k => c.get (σ k)

/-! ## Infrastructure: list and fold bridges -/

theorem lookup_mem {α β : Type*} [BEq α] [LawfulBEq α] :
    ∀ {l : List (α × β)} {k : α} {v : β}, l.lookup k = some v → (k, v) ∈ l := by
  intro l
  induction l with
  | nil => intro k v h; simp [List.lookup] at h
  | cons p t ih =>
    intro k v h
    rcases p with ⟨a, b⟩
    rw [List.lookup_cons] at h
    cases hk : k == a with
    | true =>
      rw [hk] at h
      simp only [Option.some.injEq] at h
      have ha : k = a := by simpa using hk
      subst ha
      subst h
      exact List.mem_cons_self _ _
    | false =>
      rw [hk] at h
      exact List.mem_cons_of_mem _ (ih h)

theorem truthyLookup_mem {cmp : List (String × ℚ)} {k : String} {v : ℚ}
    (h : truthyLookup cmp k = some v) : (k, v) ∈ cmp ∧ v ≠ 0 := by
  unfold truthyLookup at h
  rcases hl : cmp.lookup k with _ | w
  · rw [hl] at h; exact absurd h (by simp)
  · rw [hl] at h
    have h' : (if w = 0 then (none : Option ℚ) else some w) = some v := h
    by_cases hw : w = 0
    · rw [if_pos hw] at h'; exact absurd h' (by simp)
    · rw [if_neg hw] at h'
      cases h'
      exact ⟨lookup_mem hl, hw⟩

theorem range_foldl_mul (f : ℕ → ℝ) :
    ∀ (n : ℕ) (a : ℝ),
      (List.range n).foldl (fun p j => p * f j) a = a * ∏ j ∈ Finset.range n, f j := by
  intro n
  induction n with
  | zero => intro a; simp
  | succ n ih =>
    intro a
    rw [List.range_succ, List.foldl_append, ih, Finset.prod_range_succ]
    simp [mul_assoc]

theorem range_foldl_add (f : ℕ → ℝ) :
    ∀ (n : ℕ) (a : ℝ),
      (List.range n).foldl (fun p j => p + f j) a = a + ∑ j ∈ Finset.range n, f j := by
  intro n
  induction n with
  | zero => intro a; simp
  | succ n ih =>
    intro a
    rw [List.range_succ, List.foldl_append, ih, Finset.sum_range_succ]
    simp [add_assoc]

theorem foldl_add_eq_add_sum :
    ∀ (l : List ℝ) (a : ℝ), l.foldl (fun acc w => acc + w) a = a + l.sum := by
  intro l
  induction l with
  | nil => intro a; simp
  | cons x t ih => intro a; simp [ih, add_assoc]

theorem sum_map_range (g : ℕ → ℝ) :
    ∀ n : ℕ, ((List.range n).map g).sum = ∑ j ∈ Finset.range n, g j := by
  intro n
  induction n with
  | zero => simp
  | succ n ih => rw [List.range_succ, List.map_append, List.sum_append, ih,
      Finset.sum_range_succ]; simp

theorem getD_map_range (g : ℕ → ℝ) {n i : ℕ} (hi : i < n) :
    ((List.range n).map g).getD i 0 = g i := by
  rw [List.getD_eq_getElem?_getD, List.getElem?_eq_getElem (by simpa using hi)]
  simp

theorem getD_map_range_rat (g : ℕ → List ℚ) {n i : ℕ} (hi : i < n) :
    ((List.range n).map g).getD i [] = g i := by
  rw [List.getD_eq_getElem?_getD, List.getElem?_eq_getElem (by simpa using hi)]
  simp

/-! ## Infrastructure: the matrix builder -/

theorem length_setEntry (m : List (List ℚ)) (i j : ℕ) (v : ℚ) :
    (setEntry m i j v).length = m.length := by
  simp [setEntry]

theorem row_setEntry (m : List (List ℚ)) (i j : ℕ) (v : ℚ) (k : ℕ) :
    ((setEntry m i j v).getD k []).length = (m.getD k []).length := by
  simp only [setEntry, List.getD_eq_getElem?_getD, List.getElem?_set]
  by_cases hk : i = k
  · subst hk
    by_cases hi : i < m.length
    · simp [hi]
    · simp [hi, List.getElem?_eq_none (by omega : m.length ≤ i)]
  · simp [hk]

theorem entQ_setEntry_self (m : List (List ℚ)) {i j : ℕ} (v : ℚ)
    (hi : i < m.length) (hj : j < (m.getD i []).length) :
    entQ (setEntry m i j v) i j = v := by
  have hj' : j < m[i].length := by
    rw [List.getD_eq_getElem?_getD, List.getElem?_eq_getElem hi] at hj
    simpa using hj
  simp only [entQ, setEntry, List.getD_eq_getElem?_getD, List.getElem?_set]
  simp only [if_pos rfl, if_pos hi, Option.getD_some, List.getElem?_eq_getElem hi,
    List.getElem?_set]
  simp [hj']

theorem entQ_setEntry_ne (m : List (List ℚ)) {i j k l : ℕ} (v : ℚ)
    (h : k ≠ i ∨ l ≠ j) : entQ (setEntry m i j v) k l = entQ m k l := by
  simp only [entQ, setEntry, List.getD_eq_getElem?_getD, List.getElem?_set]
  rcases h with h | h
  · simp [Ne.symm h]
  · by_cases hk : i = k
    · subst hk
      by_cases hi : i < m.length
      · simp only [if_pos rfl, if_pos hi, Option.getD_some, List.getElem?_eq_getElem hi,
          List.getElem?_set]
        simp [Ne.symm h]
      · simp [hi, List.getElem?_eq_none (by omega : m.length ≤ i)]
    · simp [hk]

theorem fillPair_length (cmp : List (String × ℚ)) (crit : List String)
    (m : List (List ℚ)) (i j : ℕ) : (fillPair cmp crit m i j).length = m.length := by
  simp only [fillPair]
  split
  · simp [length_setEntry]
  · split <;> simp [length_setEntry]

theorem fillPair_row (cmp : List (String × ℚ)) (crit : List String)
    (m : List (List ℚ)) (i j k : ℕ) :
    ((fillPair cmp crit m i j).getD k []).length = (m.getD k []).length := by
  simp only [fillPair]
  split
  · rw [row_setEntry, row_setEntry]
  · split
    · rw [row_setEntry, row_setEntry]
    · rw [row_setEntry, row_setEntry]

theorem fillPair_preserve (cmp : List (String × ℚ)) (crit : List String)
    (m : List (List ℚ)) {i j k l : ℕ}
    (h1 : ¬(k = i ∧ l = j)) (h2 : ¬(k = j ∧ l = i)) :
    entQ (fillPair cmp crit m i j) k l = entQ m k l := by
  simp only [fillPair]
  split
  · rw [entQ_setEntry_ne _ _ (by omega), entQ_setEntry_ne _ _ (by omega)]
  · split
    · rw [entQ_setEntry_ne _ _ (by omega), entQ_setEntry_ne _ _ (by omega)]
    · rw [entQ_setEntry_ne _ _ (by omega), entQ_setEntry_ne _ _ (by omega)]

theorem fillPair_entry (cmp : List (String × ℚ)) (crit : List String)
    (m : List (List ℚ)) {i j : ℕ} (hij : i ≠ j) (hi : i < m.length) (hj : j < m.length)
    (hrow : ∀ k, k < m.length → (m.getD k []).length = m.length) :
    entQ (fillPair cmp crit m i j) i j
        = fwdVal cmp (crit.getD i "") (crit.getD j "") ∧
      entQ (fillPair cmp crit m i j) j i
        = bwdVal cmp (crit.getD i "") (crit.getD j "") := by
  simp only [fillPair, fwdVal, bwdVal]
  rcases h1 : truthyLookup cmp (pairKey (crit.getD i "") (crit.getD j "")) with _ | v
  · rcases h2 : truthyLookup cmp (pairKey (crit.getD j "") (crit.getD i "")) with _ | w
    · constructor
      · rw [entQ_setEntry_ne _ _ (by omega)]
        exact entQ_setEntry_self m 1 hi (by rw [hrow i hi]; exact hj)
      · exact entQ_setEntry_self _ 1 (by rw [length_setEntry]; exact hj)
          (by rw [row_setEntry, hrow j hj]; exact hi)
    · constructor
      · exact entQ_setEntry_self _ (1 / w) (by rw [length_setEntry]; exact hi)
          (by rw [row_setEntry, hrow i hi]; exact hj)
      · rw [entQ_setEntry_ne _ _ (by omega)]
        exact entQ_setEntry_self m w hj (by rw [hrow j hj]; exact hi)
  · constructor
    · rw [entQ_setEntry_ne _ _ (by omega)]
      exact entQ_setEntry_self m v hi (by rw [hrow i hi]; exact hj)
    · exact entQ_setEntry_self _ (1 / v) (by rw [length_setEntry]; exact hj)
        (by rw [row_setEntry, hrow j hj]; exact hi)

theorem foldl_fillPair_length (cmp : List (String × ℚ)) (crit : List String) :
    ∀ (L : List (ℕ × ℕ)) (m : List (List ℚ)),
      (L.foldl (fun mm p => fillPair cmp crit mm p.1 p.2) m).length = m.length := by
  intro L
  induction L with
  | nil => simp
  | cons p t ih => intro m; rw [List.foldl_cons, ih, fillPair_length]

theorem foldl_fillPair_row (cmp : List (String × ℚ)) (crit : List String) :
    ∀ (L : List (ℕ × ℕ)) (m : List (List ℚ)) (k : ℕ),
      ((L.foldl (fun mm p => fillPair cmp crit mm p.1 p.2) m).getD k []).length
        = ((m.getD k []) : List ℚ).length := by
  intro L
  induction L with
  | nil => simp
  | cons p t ih => intro m k; rw [List.foldl_cons, ih, fillPair_row]

theorem foldl_fillPair_preserve (cmp : List (String × ℚ)) (crit : List String) :
    ∀ (L : List (ℕ × ℕ)) (m : List (List ℚ)) (k l : ℕ),
      (∀ p ∈ L, ¬(k = p.1 ∧ l = p.2) ∧ ¬(k = p.2 ∧ l = p.1)) →
      entQ (L.foldl (fun mm p => fillPair cmp crit mm p.1 p.2) m) k l = entQ m k l := by
  intro L
  induction L with
  | nil => simp
  | cons p t ih =>
    intro m k l hp
    rw [List.foldl_cons, ih _ _ _ (fun q hq => hp q (List.mem_cons_of_mem _ hq))]
    have h := hp p (List.mem_cons_self _ _)
    exact fillPair_preserve cmp crit m h.1 h.2

theorem foldl_fillPair_mem (cmp : List (String × ℚ)) (crit : List String) :
    ∀ (L : List (ℕ × ℕ)) (m : List (List ℚ)) {i j : ℕ},
      (i, j) ∈ L → L.Nodup → (∀ p ∈ L, p.1 < p.2 ∧ p.2 < m.length) →
      (∀ k, k < m.length → (m.getD k []).length = m.length) →
      entQ (L.foldl (fun mm p => fillPair cmp crit mm p.1 p.2) m) i j
          = fwdVal cmp (crit.getD i "") (crit.getD j "") ∧
        entQ (L.foldl (fun mm p => fillPair cmp crit mm p.1 p.2) m) j i
          = bwdVal cmp (crit.getD i "") (crit.getD j "") := by
  intro L
  induction L with
  | nil => intro m i j hmem; exact absurd hmem (List.not_mem_nil _)
  | cons p t ih =>
    intro m i j hmem hnd hbound hrow
    rw [List.foldl_cons]
    rcases List.mem_cons.mp hmem with he | ht
    · subst he
      have hb := hbound (i, j) (List.mem_cons_self _ _)
      have hnotin : (i, j) ∉ t := (List.nodup_cons.mp hnd).1
      have hi : i < m.length := lt_trans hb.1 hb.2
      have hcov1 : ∀ q ∈ t, ¬(i = q.1 ∧ j = q.2) ∧ ¬(i = q.2 ∧ j = q.1) := by
        intro q hq
        have hq' := hbound q (List.mem_cons_of_mem _ hq)
        constructor
        · rintro ⟨e1, e2⟩
          have hq2 : (i, j) = q := by rw [e1, e2]
          exact hnotin (hq2 ▸ hq)
        · rintro ⟨e1, e2⟩
          omega
      have hcov2 : ∀ q ∈ t, ¬(j = q.1 ∧ i = q.2) ∧ ¬(j = q.2 ∧ i = q.1) := by
        intro q hq
        have hq' := hbound q (List.mem_cons_of_mem _ hq)
        constructor
        · rintro ⟨e1, e2⟩
          omega
        · rintro ⟨e1, e2⟩
          have hq2 : (i, j) = q := by rw [e2, e1]
          exact hnotin (hq2 ▸ hq)
      constructor
      · rw [foldl_fillPair_preserve cmp crit t _ i j hcov1]
        exact (fillPair_entry cmp crit m (by omega) hi hb.2 hrow).1
      · rw [foldl_fillPair_preserve cmp crit t _ j i hcov2]
        exact (fillPair_entry cmp crit m (by omega) hi hb.2 hrow).2
    · apply ih _ ht (List.nodup_cons.mp hnd).2
      · intro q hq
        have := hbound q (List.mem_cons_of_mem _ hq)
        rwa [fillPair_length]
      · intro k hk
        rw [fillPair_length] at hk
        rw [fillPair_row, fillPair_length]
        exact hrow k hk

theorem mem_upperPairs {n i j : ℕ} : (i, j) ∈ upperPairs n ↔ i < j ∧ j < n := by
  simp only [upperPairs, List.mem_flatMap, List.mem_range, List.mem_map, List.mem_range']
  constructor
  · rintro ⟨a, ha, x, ⟨t, ht, hx⟩, he⟩
    rw [Prod.mk.injEq] at he
    omega
  · rintro ⟨hij, hj⟩
    exact ⟨i, by omega, ⟨j, ⟨j - (i + 1), by omega, by omega⟩, rfl⟩⟩

theorem nodup_upperPairs (n : ℕ) : (upperPairs n).Nodup := by
  rw [upperPairs, List.nodup_flatMap]
  constructor
  · intro x _
    apply List.Nodup.map
    · intro a b hab
      simpa using hab
    · exact List.nodup_range' _ _
  · apply (List.pairwise_lt_range n).imp
    intro a b hab p hpa hpb
    simp only [List.mem_map] at hpa hpb
    obtain ⟨x, -, he1⟩ := hpa
    obtain ⟨y, -, he2⟩ := hpb
    rw [← he1, Prod.mk.injEq] at he2
    omega

theorem buildComparisonMatrix_length (c : List String) (cmp : List (String × ℚ)) :
    (buildComparisonMatrix c cmp).length = c.length := by
  unfold buildComparisonMatrix
  rw [foldl_fillPair_length]
  simp

theorem buildComparisonMatrix_row (c : List String) (cmp : List (String × ℚ))
    {k : ℕ} (hk : k < c.length) :
    ((buildComparisonMatrix c cmp).getD k []).length = c.length := by
  unfold buildComparisonMatrix
  rw [foldl_fillPair_row, List.getD_eq_getElem?_getD, List.getElem?_replicate,
    if_pos hk]
  simp

theorem mem_upperPairs_of {n : ℕ} {p : ℕ × ℕ} (hp : p ∈ upperPairs n) :
    p.1 < p.2 ∧ p.2 < n := by
  obtain ⟨a, b⟩ := p
  exact mem_upperPairs.mp hp

theorem buildComparisonMatrix_entry (c : List String) (cmp : List (String × ℚ))
    {i j : ℕ} (hij : i < j) (hj : j < c.length) :
    entQ (buildComparisonMatrix c cmp) i j = fwdVal cmp (c.getD i "") (c.getD j "") ∧
      entQ (buildComparisonMatrix c cmp) j i = bwdVal cmp (c.getD i "") (c.getD j "") := by
  unfold buildComparisonMatrix
  apply foldl_fillPair_mem
  · exact mem_upperPairs.mpr ⟨hij, hj⟩
  · exact nodup_upperPairs _
  · intro p hp
    rw [List.length_replicate]
    exact mem_upperPairs_of hp
  · intro k hk
    rw [List.length_replicate] at hk
    rw [List.length_replicate, List.getD_eq_getElem?_getD, List.getElem?_replicate,
      if_pos hk]
    simp

theorem buildComparisonMatrix_diag (c : List String) (cmp : List (String × ℚ))
    {i : ℕ} (hi : i < c.length) : entQ (buildComparisonMatrix c cmp) i i = 1 := by
  unfold buildComparisonMatrix
  rw [foldl_fillPair_preserve]
  · unfold entQ
    simp only [List.getD_eq_getElem?_getD]
    simp [List.getElem?_replicate, hi]
  · intro p hp
    have := mem_upperPairs_of hp
    constructor
    · rintro ⟨e1, e2⟩
      omega
    · rintro ⟨e1, e2⟩
      omega

theorem fwdVal_mul_bwdVal (cmp : List (String × ℚ)) (a b : String) :
    fwdVal cmp a b * bwdVal cmp a b = 1 := by
  unfold fwdVal bwdVal
  rcases h1 : truthyLookup cmp (pairKey a b) with _ | v
  · rcases h2 : truthyLookup cmp (pairKey b a) with _ | w
    · simp
    · have hw := (truthyLookup_mem h2).2
      field_simp
  · have hv := (truthyLookup_mem h1).2
    field_simp

theorem fwdVal_pos {cmp : List (String × ℚ)} (hpos : ∀ p ∈ cmp, 0 < p.2)
    (a b : String) : 0 < fwdVal cmp a b := by
  unfold fwdVal
  rcases h1 : truthyLookup cmp (pairKey a b) with _ | v
  · rcases h2 : truthyLookup cmp (pairKey b a) with _ | w
    · norm_num
    · have hw := hpos _ (truthyLookup_mem h2).1
      positivity
  · exact hpos _ (truthyLookup_mem h1).1

theorem bwdVal_pos {cmp : List (String × ℚ)} (hpos : ∀ p ∈ cmp, 0 < p.2)
    (a b : String) : 0 < bwdVal cmp a b := by
  unfold bwdVal
  rcases h1 : truthyLookup cmp (pairKey a b) with _ | v
  · rcases h2 : truthyLookup cmp (pairKey b a) with _ | w
    · norm_num
    · exact hpos _ (truthyLookup_mem h2).1
  · have hv := hpos _ (truthyLookup_mem h1).1
    positivity

theorem buildComparisonMatrix_pos (c : List String) {cmp : List (String × ℚ)}
    (hpos : ∀ p ∈ cmp, 0 < p.2) {i j : ℕ}
    (hi : i < c.length) (hj : j < c.length) :
    0 < entQ (buildComparisonMatrix c cmp) i j := by
  rcases lt_trichotomy i j with h | h | h
  · rw [(buildComparisonMatrix_entry c cmp h hj).1]
    exact fwdVal_pos hpos _ _
  · subst h
    rw [buildComparisonMatrix_diag c cmp hi]
    norm_num
  · rw [(buildComparisonMatrix_entry c cmp h hi).2]
    exact bwdVal_pos hpos _ _

theorem buildComparisonMatrix_reciprocal (c : List String) (cmp : List (String × ℚ))
    {i j : ℕ} (hi : i < c.length) (hj : j < c.length) :
    entQ (buildComparisonMatrix c cmp) i j * entQ (buildComparisonMatrix c cmp) j i = 1 := by
  rcases lt_trichotomy i j with h | h | h
  · rw [(buildComparisonMatrix_entry c cmp h hj).1, (buildComparisonMatrix_entry c cmp h hj).2]
    exact fwdVal_mul_bwdVal cmp _ _
  · subst h
    rw [buildComparisonMatrix_diag c cmp hi]
    norm_num
  · rw [(buildComparisonMatrix_entry c cmp h hi).1, (buildComparisonMatrix_entry c cmp h hi).2]
    rw [mul_comm]
    exact fwdVal_mul_bwdVal cmp _ _

/-! ## Infrastructure: the real-valued pipeline -/

theorem length_toRealMatrix (m : List (List ℚ)) :
    (toRealMatrix m).length = m.length := by
  simp [toRealMatrix]

theorem ent_toRealMatrix (m : List (List ℚ)) (i j : ℕ) :
    ent (toRealMatrix m) i j = ((entQ m i j : ℚ) : ℝ) := by
  have h1 := @List.getD_map (List ℚ) (List ℝ) m [] i fun row => row.map fun v : ℚ => (v : ℝ)
  rw [List.map_nil] at h1
  have h2 := @List.getD_map ℚ ℝ (m.getD i []) 0 j fun v : ℚ => (v : ℝ)
  rw [Rat.cast_zero] at h2
  unfold ent entQ toRealMatrix
  rw [h1, h2]

theorem calculateWeights_length (m : List (List ℝ)) :
    (calculateWeights m).length = m.length := by
  simp [calculateWeights]

theorem calculateWeights_getD (m : List (List ℝ)) {i : ℕ} (hi : i < m.length) :
    (calculateWeights m).getD i 0
      = specGeomMean m i / ∑ k ∈ Finset.range m.length, specGeomMean m k := by
  have hgm : ∀ k, ((List.range m.length).foldl (fun p j => p * ent m k j) 1)
      ^ ((1 : ℝ) / (m.length : ℝ)) = specGeomMean m k := by
    intro k
    rw [range_foldl_mul, one_mul]
    rfl
  simp only [calculateWeights, List.map_map]
  rw [getD_map_range _ hi]
  simp only [Function.comp]
  rw [hgm i]
  congr 1
  rw [foldl_add_eq_add_sum, zero_add, sum_map_range]
  exact Finset.sum_congr rfl fun k _ => hgm k

theorem specGeomMean_pos {m : List (List ℝ)}
    (hpos : ∀ i j, i < m.length → j < m.length → 0 < ent m i j)
    {i : ℕ} (hi : i < m.length) : 0 < specGeomMean m i :=
  Real.rpow_pos_of_pos
    (Finset.prod_pos fun j hj => hpos i j hi (Finset.mem_range.mp hj)) _

theorem sum_specGeomMean_pos {m : List (List ℝ)} (h1 : 1 ≤ m.length)
    (hpos : ∀ i j, i < m.length → j < m.length → 0 < ent m i j) :
    0 < ∑ k ∈ Finset.range m.length, specGeomMean m k :=
  Finset.sum_pos (fun k hk => specGeomMean_pos hpos (Finset.mem_range.mp hk))
    ⟨0, Finset.mem_range.mpr h1⟩

theorem calculateWeights_pos {m : List (List ℝ)} (h1 : 1 ≤ m.length)
    (hpos : ∀ i j, i < m.length → j < m.length → 0 < ent m i j)
    {i : ℕ} (hi : i < m.length) : 0 < (calculateWeights m).getD i 0 := by
  rw [calculateWeights_getD m hi]
  exact div_pos (specGeomMean_pos hpos hi) (sum_specGeomMean_pos h1 hpos)

theorem calculateWeights_sum {m : List (List ℝ)} (h1 : 1 ≤ m.length)
    (hpos : ∀ i j, i < m.length → j < m.length → 0 < ent m i j) :
    (calculateWeights m).sum = 1 := by
  have hgm : ∀ k, ((List.range m.length).foldl (fun p j => p * ent m k j) 1)
      ^ ((1 : ℝ) / (m.length : ℝ)) = specGeomMean m k := by
    intro k
    rw [range_foldl_mul, one_mul]
    rfl
  have hS : 0 < ∑ k ∈ Finset.range m.length, specGeomMean m k :=
    sum_specGeomMean_pos h1 hpos
  simp only [calculateWeights, List.map_map]
  rw [sum_map_range]
  simp only [Function.comp]
  have hfold : List.foldl (fun acc w => acc + w) 0
      ((List.range m.length).map fun i =>
        ((List.range m.length).foldl (fun product j => product * ent m i j) 1)
          ^ ((1 : ℝ) / (m.length : ℝ)))
      = ∑ k ∈ Finset.range m.length, specGeomMean m k := by
    rw [foldl_add_eq_add_sum, zero_add, sum_map_range]
    exact Finset.sum_congr rfl fun k _ => hgm k
  rw [hfold]
  have hcongr : ∀ k ∈ Finset.range m.length,
      ((List.range m.length).foldl (fun product j => product * ent m k j) 1)
          ^ ((1 : ℝ) / (m.length : ℝ)) / (∑ j ∈ Finset.range m.length, specGeomMean m j)
        = specGeomMean m k / (∑ j ∈ Finset.range m.length, specGeomMean m j) :=
    fun k _ => by rw [hgm k]
  rw [Finset.sum_congr rfl hcongr, ← Finset.sum_div, div_self (ne_of_gt hS)]

theorem calculateLambdaMax_eq_spec (m : List (List ℝ)) (w : List ℝ) :
    calculateLambdaMax m w = specLambdaMax m w := by
  simp only [calculateLambdaMax, specLambdaMax]
  rw [range_foldl_add, zero_add, one_div_mul_eq_div]
  congr 1
  apply Finset.sum_congr rfl
  intro i hi
  rw [getD_map_range _ (Finset.mem_range.mp hi), range_foldl_add, zero_add]

theorem randomIndexOrDefault_eq_specRI {n : ℕ} (h3 : 3 ≤ n) :
    randomIndexOrDefault n = specRI n := by
  unfold randomIndexOrDefault RANDOM_INDEX specRI
  by_cases e3 : n = 3
  · subst e3; norm_num
  · by_cases e4 : n = 4
    · subst e4; norm_num
    · by_cases e5 : n = 5
      · subst e5; norm_num
      · by_cases e6 : n = 6
        · subst e6; norm_num
        · by_cases e7 : n = 7
          · subst e7; norm_num
          · by_cases e8 : n = 8
            · subst e8; norm_num
            · by_cases e9 : n = 9
              · subst e9; norm_num
              · by_cases e10 : n = 10
                · subst e10; norm_num
                · have e1 : n ≠ 1 := by omega
                  have e2 : n ≠ 2 := by omega
                  simp [e1, e2, e3, e4, e5, e6, e7, e8, e9, e10]

theorem specRI_pos {n : ℕ} (h3 : 3 ≤ n) : 0 < specRI n := by
  unfold specRI
  split
  · norm_num
  · split
    · norm_num
    · split
      · norm_num
      · split
        · norm_num
        · split
          · norm_num
          · split
            · norm_num
            · split
              · norm_num
              · norm_num

/-- The key inequality behind non-negativity of the consistency ratio: for a
positive reciprocal matrix (given entrywise as `E`) and positive weights,
`Σ_i (Σ_j E i j * w j) / w i ≥ n²`. -/
theorem sum_ratio_ge_sq (n : ℕ) (E : ℕ → ℕ → ℝ) (w : ℕ → ℝ)
    (hw : ∀ i, i < n → 0 < w i)
    (hE : ∀ i j, i < n → j < n → 0 < E i j)
    (hrec : ∀ i j, i < n → j < n → E i j * E j i = 1) :
    (n : ℝ) ^ 2 ≤ ∑ i ∈ Finset.range n, (∑ j ∈ Finset.range n, E i j * w j) / w i := by
  have hdiv : ∀ i ∈ Finset.range n,
      (∑ j ∈ Finset.range n, E i j * w j) / w i
        = ∑ j ∈ Finset.range n, E i j * w j / w i := by
    intro i _
    rw [Finset.sum_div]
  rw [Finset.sum_congr rfl hdiv]
  have hpt : ∀ i ∈ Finset.range n, ∀ j ∈ Finset.range n,
      2 ≤ E i j * w j / w i + E j i * w i / w j := by
    intro i hi j hj
    have hi' := Finset.mem_range.mp hi
    have hj' := Finset.mem_range.mp hj
    have hwi := hw i hi'
    have hwj := hw j hj'
    have hEij := hE i j hi' hj'
    have hEji := hE j i hj' hi'
    have hprod : (E i j * w j / w i) * (E j i * w i / w j) = 1 := by
      field_simp
      calc E i j * w j * (E j i * w i) = (E i j * E j i) * (w j * w i) := by ring
        _ = w j * w i := by rw [hrec i j hi' hj', one_mul]
        _ = w i * w j := by ring
    have ht : 0 < E i j * w j / w i := by positivity
    nlinarith [sq_nonneg (E i j * w j / w i - 1), ht, hprod]
  have key : 2 * ((n : ℝ) * n)
      ≤ (∑ i ∈ Finset.range n, ∑ j ∈ Finset.range n, E i j * w j / w i)
        + ∑ i ∈ Finset.range n, ∑ j ∈ Finset.range n, E i j * w j / w i := by
    calc 2 * ((n : ℝ) * n)
        = ∑ i ∈ Finset.range n, ∑ j ∈ Finset.range n, (2 : ℝ) := by
          simp only [Finset.sum_const, Finset.card_range, nsmul_eq_mul]
          push_cast
          ring
      _ ≤ ∑ i ∈ Finset.range n, ∑ j ∈ Finset.range n,
            (E i j * w j / w i + E j i * w i / w j) := by
          apply Finset.sum_le_sum
          intro i hi
          apply Finset.sum_le_sum
          intro j hj
          exact hpt i hi j hj
      _ = (∑ i ∈ Finset.range n, ∑ j ∈ Finset.range n, E i j * w j / w i)
            + ∑ i ∈ Finset.range n, ∑ j ∈ Finset.range n, E j i * w i / w j := by
          simp only [Finset.sum_add_distrib]
      _ = (∑ i ∈ Finset.range n, ∑ j ∈ Finset.range n, E i j * w j / w i)
            + ∑ i ∈ Finset.range n, ∑ j ∈ Finset.range n, E i j * w j / w i := by
          congr 1
          exact Finset.sum_comm
  rw [sq]
  linarith [key]

/-! ## Infrastructure: the result object -/

theorem foldlUpd_not_mem :
    ∀ (pairs : List (String × ℝ)) (f0 : String → Option ℝ) (s : String),
      (∀ p ∈ pairs, p.1 ≠ s) →
      (pairs.foldl (fun acc p => fun t => if t = p.1 then some p.2 else acc t) f0) s
        = f0 s := by
  intro pairs
  induction pairs with
  | nil => intro f0 s _; rfl
  | cons p t ih =>
    intro f0 s h
    rw [List.foldl_cons, ih _ _ (fun q hq => h q (List.mem_cons_of_mem _ hq))]
    exact if_neg fun he => h p (List.mem_cons_self _ _) he.symm

theorem foldlUpd_mem_nodup :
    ∀ (pairs : List (String × ℝ)) (f0 : String → Option ℝ) (s : String) (v : ℝ),
      (pairs.map Prod.fst).Nodup → (s, v) ∈ pairs →
      (pairs.foldl (fun acc p => fun t => if t = p.1 then some p.2 else acc t) f0) s
        = some v := by
  intro pairs
  induction pairs with
  | nil => intro f0 s v _ hm; exact absurd hm (List.not_mem_nil _)
  | cons p t ih =>
    intro f0 s v hnd hm
    rw [List.map_cons, List.nodup_cons] at hnd
    rw [List.foldl_cons]
    rcases List.mem_cons.mp hm with he | ht
    · have hs : s = p.1 := by rw [← he]
      have hv : v = p.2 := by rw [← he]
      have hnot : ∀ q ∈ t, q.1 ≠ s := by
        intro q hq he2
        apply hnd.1
        have hin : q.1 ∈ List.map Prod.fst t := List.mem_map.mpr ⟨q, hq, rfl⟩
        rw [he2, hs] at hin
        exact hin
      rw [foldlUpd_not_mem t _ s hnot, if_pos hs, hv]
    · exact ih _ s v hnd.2 ht

theorem objAssign_not_mem (pairs : List (String × ℝ)) (s : String)
    (h : ∀ p ∈ pairs, p.1 ≠ s) : objAssign pairs s = none :=
  foldlUpd_not_mem pairs _ s h

theorem objAssign_mem_nodup (pairs : List (String × ℝ)) {s : String} {v : ℝ}
    (hnd : (pairs.map Prod.fst).Nodup) (hm : (s, v) ∈ pairs) :
    objAssign pairs s = some v :=
  foldlUpd_mem_nodup pairs _ s v hnd hm

theorem calculateAHPWeights_cr (c : List String) (cmp : List (String × ℚ)) :
    (calculateAHPWeights c cmp).consistencyRatio
      = calculateConsistencyRatio (toRealMatrix (buildComparisonMatrix c cmp))
          (calculateWeights (toRealMatrix (buildComparisonMatrix c cmp))) := rfl

theorem calculateAHPWeights_flag (c : List String) (cmp : List (String × ℚ)) :
    (calculateAHPWeights c cmp).isConsistent
      ↔ (calculateAHPWeights c cmp).consistencyRatio < 0.1 := Iff.rfl

theorem calculateAHPWeights_weights_get (c : List String) (cmp : List (String × ℚ))
    (hnd : c.Nodup) (k : Fin c.length) :
    (calculateAHPWeights c cmp).weights (c.get k)
      = some ((calculateWeights (toRealMatrix (buildComparisonMatrix c cmp))).getD k 0) := by
  simp only [calculateAHPWeights]
  apply objAssign_mem_nodup
  · rw [List.map_map]
    have hcomp : (Prod.fst ∘ fun p : ℕ × String =>
        (p.2, (calculateWeights (toRealMatrix (buildComparisonMatrix c cmp))).getD p.1 0))
        = Prod.snd := funext fun p => rfl
    rw [hcomp, List.enum_map_snd]
    exact hnd
  · apply List.mem_map.mpr
    refine ⟨(k.val, c.get k), ?_, rfl⟩
    have hk : k.val < c.enum.length := by rw [List.enum_length]; exact k.isLt
    have he := List.getElem_enum c k.val hk
    rw [List.get_eq_getElem, ← he]
    exact List.getElem_mem hk

theorem calculateAHPWeights_weights_not_mem (c : List String) (cmp : List (String × ℚ))
    {s : String} (hs : s ∉ c) : (calculateAHPWeights c cmp).weights s = none := by
  simp only [calculateAHPWeights]
  apply objAssign_not_mem
  intro p hp he
  rcases List.mem_map.mp hp with ⟨q, hq, rfl⟩
  have := List.mem_enum hq
  exact hs (he ▸ this.2 ▸ List.getElem_mem this.1)

theorem length_buildReal (c : List String) (cmp : List (String × ℚ)) :
    (toRealMatrix (buildComparisonMatrix c cmp)).length = c.length := by
  rw [length_toRealMatrix, buildComparisonMatrix_length]

theorem entBuild_pos (c : List String) {cmp : List (String × ℚ)}
    (hpos : ∀ p ∈ cmp, 0 < p.2) {i j : ℕ} (hi : i < c.length) (hj : j < c.length) :
    0 < ent (toRealMatrix (buildComparisonMatrix c cmp)) i j := by
  rw [ent_toRealMatrix]
  exact_mod_cast buildComparisonMatrix_pos c hpos hi hj

theorem entBuild_reciprocal (c : List String) (cmp : List (String × ℚ))
    {i j : ℕ} (hi : i < c.length) (hj : j < c.length) :
    ent (toRealMatrix (buildComparisonMatrix c cmp)) i j
      * ent (toRealMatrix (buildComparisonMatrix c cmp)) j i = 1 := by
  rw [ent_toRealMatrix, ent_toRealMatrix]
  exact_mod_cast buildComparisonMatrix_reciprocal c cmp hi hj

/-- On the `calculateAHPWeights` path (strictly positive judgment values),
the consistency ratio is non-negative: for `n ≥ 3` this is
`λmax ≥ n` for a positive reciprocal matrix with positive weights. -/
theorem ahp_cr_nonneg (c : List String) {cmp : List (String × ℚ)}
    (h1 : 1 ≤ c.length) (hpos : ∀ p ∈ cmp, 0 < p.2) :
    0 ≤ calculateConsistencyRatio (toRealMatrix (buildComparisonMatrix c cmp))
        (calculateWeights (toRealMatrix (buildComparisonMatrix c cmp))) := by
  have hlen := length_buildReal c cmp
  by_cases h3 : (toRealMatrix (buildComparisonMatrix c cmp)).length < 3
  · unfold calculateConsistencyRatio
    rw [if_pos h3]
  · unfold calculateConsistencyRatio
    rw [if_neg h3]
    have hent : ∀ i j, i < (toRealMatrix (buildComparisonMatrix c cmp)).length →
        j < (toRealMatrix (buildComparisonMatrix c cmp)).length →
        0 < ent (toRealMatrix (buildComparisonMatrix c cmp)) i j := by
      intro i j hi hj
      rw [hlen] at hi hj
      exact entBuild_pos c hpos hi hj
    have hrec : ∀ i j, i < (toRealMatrix (buildComparisonMatrix c cmp)).length →
        j < (toRealMatrix (buildComparisonMatrix c cmp)).length →
        ent (toRealMatrix (buildComparisonMatrix c cmp)) i j
          * ent (toRealMatrix (buildComparisonMatrix c cmp)) j i = 1 := by
      intro i j hi hj
      rw [hlen] at hi hj
      exact entBuild_reciprocal c cmp hi hj
    have hw : ∀ i, i < (toRealMatrix (buildComparisonMatrix c cmp)).length →
        0 < (calculateWeights (toRealMatrix (buildComparisonMatrix c cmp))).getD i 0 :=
      fun i hi => calculateWeights_pos (by omega) hent hi
    have hsum := sum_ratio_ge_sq (toRealMatrix (buildComparisonMatrix c cmp)).length
      (fun i j => ent (toRealMatrix (buildComparisonMatrix c cmp)) i j)
      (fun i => (calculateWeights (toRealMatrix (buildComparisonMatrix c cmp))).getD i 0)
      hw hent hrec
    have hnR : (0 : ℝ) < ((toRealMatrix (buildComparisonMatrix c cmp)).length : ℝ) := by
      have : 3 ≤ (toRealMatrix (buildComparisonMatrix c cmp)).length := by omega
      exact_mod_cast by omega
    have hlam_ge : ((toRealMatrix (buildComparisonMatrix c cmp)).length : ℝ)
        ≤ calculateLambdaMax (toRealMatrix (buildComparisonMatrix c cmp))
            (calculateWeights (toRealMatrix (buildComparisonMatrix c cmp))) := by
      rw [calculateLambdaMax_eq_spec]
      unfold specLambdaMax
      calc ((toRealMatrix (buildComparisonMatrix c cmp)).length : ℝ)
          = (1 / ((toRealMatrix (buildComparisonMatrix c cmp)).length : ℝ))
              * ((toRealMatrix (buildComparisonMatrix c cmp)).length : ℝ) ^ 2 := by
            rw [sq]
            field_simp
        _ ≤ _ := by
            apply mul_le_mul_of_nonneg_left hsum
            positivity
    apply div_nonneg
    · unfold calculateCI
      apply div_nonneg
      · linarith [hlam_ge]
      · have h3R : (3 : ℝ) ≤ ((toRealMatrix (buildComparisonMatrix c cmp)).length : ℝ) := by
          exact_mod_cast by omega
        linarith
    · rw [randomIndexOrDefault_eq_specRI (by omega)]
      exact (specRI_pos (by omega)).le

theorem fwdVal_of_fwd {cmp : List (String × ℚ)} {a b : String} {v : ℚ}
    (h1 : truthyLookup cmp (pairKey a b) = some v) : fwdVal cmp a b = v := by
  unfold fwdVal
  rw [h1]

theorem bwdVal_of_fwd {cmp : List (String × ℚ)} {a b : String} {v : ℚ}
    (h1 : truthyLookup cmp (pairKey a b) = some v) : bwdVal cmp a b = 1 / v := by
  unfold bwdVal
  rw [h1]

theorem fwdVal_of_rev {cmp : List (String × ℚ)} {a b : String} {w : ℚ}
    (h1 : truthyLookup cmp (pairKey a b) = none)
    (h2 : truthyLookup cmp (pairKey b a) = some w) : fwdVal cmp a b = 1 / w := by
  unfold fwdVal
  rw [h1, h2]

theorem bwdVal_of_rev {cmp : List (String × ℚ)} {a b : String} {w : ℚ}
    (h1 : truthyLookup cmp (pairKey a b) = none)
    (h2 : truthyLookup cmp (pairKey b a) = some w) : bwdVal cmp a b = w := by
  unfold bwdVal
  rw [h1, h2]

theorem fwdVal_of_none {cmp : List (String × ℚ)} {a b : String}
    (h1 : truthyLookup cmp (pairKey a b) = none)
    (h2 : truthyLookup cmp (pairKey b a) = none) : fwdVal cmp a b = 1 := by
  unfold fwdVal
  rw [h1, h2]

theorem bwdVal_of_none {cmp : List (String × ℚ)} {a b : String}
    (h1 : truthyLookup cmp (pairKey a b) = none)
    (h2 : truthyLookup cmp (pairKey b a) = none) : bwdVal cmp a b = 1 := by
  unfold bwdVal
  rw [h1, h2]

/-! ## Claims -/

/-- C2: for every criteria list and judgment mapping with positive values,
`buildComparisonMatrix` returns an `n × n` matrix with unit diagonal, with
`M[i][j] * M[j][i] = 1` exactly (the mirror cell is the reciprocal of the one
looked-up value, never looked up independently), with all entries strictly
positive, and a pair with no judgment in either direction defaults to `1`. -/
theorem claim_C2 (c : List String) (cmp : List (String × ℚ))
    (hpos : ∀ p ∈ cmp, 0 < p.2) :
    ((buildComparisonMatrix c cmp).length = c.length ∧
      ∀ k, k < c.length → ((buildComparisonMatrix c cmp).getD k []).length = c.length) ∧
    (∀ i, i < c.length → entQ (buildComparisonMatrix c cmp) i i = 1) ∧
    (∀ i j, i < c.length → j < c.length →
      entQ (buildComparisonMatrix c cmp) i j * entQ (buildComparisonMatrix c cmp) j i = 1) ∧
    (∀ i j, i < c.length → j < c.length → 0 < entQ (buildComparisonMatrix c cmp) i j) ∧
    (∀ i j, i < j → j < c.length →
      cmp.lookup (pairKey (c.getD i "") (c.getD j "")) = none →
      cmp.lookup (pairKey (c.getD j "") (c.getD i "")) = none →
      entQ (buildComparisonMatrix c cmp) i j = 1 ∧
        entQ (buildComparisonMatrix c cmp) j i = 1) := by
  refine ⟨⟨buildComparisonMatrix_length c cmp, fun k hk => buildComparisonMatrix_row c cmp hk⟩,
    fun i hi => buildComparisonMatrix_diag c cmp hi,
    fun i j hi hj => buildComparisonMatrix_reciprocal c cmp hi hj,
    fun i j hi hj => buildComparisonMatrix_pos c hpos hi hj, ?_⟩
  intro i j hij hj hfwd hrev
  have ht1 : truthyLookup cmp (pairKey (c.getD i "") (c.getD j "")) = none := by
    unfold truthyLookup
    rw [hfwd]
  have ht2 : truthyLookup cmp (pairKey (c.getD j "") (c.getD i "")) = none := by
    unfold truthyLookup
    rw [hrev]
  have hent := buildComparisonMatrix_entry c cmp hij hj
  constructor
  · rw [hent.1]
    exact fwdVal_of_none ht1 ht2
  · rw [hent.2]
    exact bwdVal_of_none ht1 ht2

theorem claim_C2_witness :
    entQ (buildComparisonMatrix ["A", "B"] [("A-B", 3)]) 0 1
        * entQ (buildComparisonMatrix ["A", "B"] [("A-B", 3)]) 1 0 = 1 ∧
      0 < entQ (buildComparisonMatrix ["A", "B"] [("A-B", 3)]) 0 1 ∧
      entQ (buildComparisonMatrix ["A", "B"] [("A-B", 3)]) 0 0 = 1 := by
  have h := claim_C2 ["A", "B"] [("A-B", 3)] (by
    intro p hp
    rcases List.mem_cons.mp hp with he | he
    · rw [he]; norm_num
    · exact absurd he (List.not_mem_nil _))
  exact ⟨h.2.2.1 0 1 (by norm_num) (by norm_num),
    h.2.2.2.1 0 1 (by norm_num) (by norm_num),
    h.2.1 0 (by norm_num)⟩

/-- C6: for `n < 3` the consistency ratio is exactly `0` and the result is
classified consistent, regardless of the judgment values — both for
`calculateConsistencyRatio` directly and through `calculateAHPWeights`. -/
theorem claim_C6 (c : List String) (cmp : List (String × ℚ)) (hn : c.length < 3) :
    ((calculateAHPWeights c cmp).consistencyRatio = 0 ∧
      (calculateAHPWeights c cmp).isConsistent) ∧
    ∀ (m : List (List ℝ)) (w : List ℝ), m.length < 3 →
      calculateConsistencyRatio m w = 0 ∧ isConsistent (calculateConsistencyRatio m w) := by
  have hgen : ∀ (m : List (List ℝ)) (w : List ℝ), m.length < 3 →
      calculateConsistencyRatio m w = 0 := by
    intro m w h
    unfold calculateConsistencyRatio
    rw [if_pos h]
  have hcr : (calculateAHPWeights c cmp).consistencyRatio = 0 := by
    rw [calculateAHPWeights_cr]
    exact hgen _ _ (by rw [length_buildReal]; exact hn)
  refine ⟨⟨hcr, ?_⟩, fun m w h => ⟨hgen m w h, ?_⟩⟩
  · apply (calculateAHPWeights_flag c cmp).mpr
    rw [hcr]
    norm_num
  · unfold isConsistent
    rw [hgen m w h]
    norm_num

theorem claim_C6_witness :
    (calculateAHPWeights ["A", "B"] [("A-B", 9)]).consistencyRatio = 0 ∧
      (calculateAHPWeights ["A", "B"] [("A-B", 9)]).isConsistent :=
  (claim_C6 ["A", "B"] [("A-B", 9)] (by norm_num)).1

/-- C10: a judgment entry whose stored value is exactly `0` is falsy for the
JS truthiness test, so the builder behaves as if that direction were
unspecified: a truthy reverse entry wins, and otherwise the pair defaults
to `1`; the `0` never enters the matrix and no error is raised. -/
theorem claim_C10 (c : List String) (cmp : List (String × ℚ)) {i j : ℕ}
    (hij : i < j) (hj : j < c.length)
    (h0 : cmp.lookup (pairKey (c.getD i "") (c.getD j "")) = some 0) :
    (∀ w, truthyLookup cmp (pairKey (c.getD j "") (c.getD i "")) = some w →
      entQ (buildComparisonMatrix c cmp) i j = 1 / w ∧
        entQ (buildComparisonMatrix c cmp) j i = w) ∧
    (truthyLookup cmp (pairKey (c.getD j "") (c.getD i "")) = none →
      entQ (buildComparisonMatrix c cmp) i j = 1 ∧
        entQ (buildComparisonMatrix c cmp) j i = 1) := by
  have htf : truthyLookup cmp (pairKey (c.getD i "") (c.getD j "")) = none := by
    unfold truthyLookup
    rw [h0]
    simp
  have hent := buildComparisonMatrix_entry c cmp hij hj
  constructor
  · intro w hw
    constructor
    · rw [hent.1]; exact fwdVal_of_rev htf hw
    · rw [hent.2]; exact bwdVal_of_rev htf hw
  · intro hnone
    constructor
    · rw [hent.1]; exact fwdVal_of_none htf hnone
    · rw [hent.2]; exact bwdVal_of_none htf hnone

theorem claim_C10_witness :
    entQ (buildComparisonMatrix ["A", "B"] [("A-B", 0), ("B-A", 4)]) 0 1 = 1 / 4 ∧
      entQ (buildComparisonMatrix ["A", "B"] [("A-B", 0), ("B-A", 4)]) 1 0 = 4 :=
  (claim_C10 ["A", "B"] [("A-B", 0), ("B-A", 4)] (by norm_num) (by norm_num)
    (by rfl)).1 4 (by rfl)

/-- C3 (counterexample): a judgment value `0` is not rejected with an error;
the builder silently substitutes the default `1` for the pair. -/
theorem claim_C3_counterexample :
    buildComparisonMatrix ["A", "B"] [("A-B", 0)] = [[1, 1], [1, 1]] := rfl

/-- C3 (amended): the builder has no error path: a non-zero (in particular
negative) judgment value `v` is inserted as `M[0][1] = v`, `M[1][0] = 1/v`,
and a `0` value is treated as absent, so the pair silently defaults to `1`. -/
theorem claim_C3_amended :
    (∀ v : ℚ, v ≠ 0 →
      buildComparisonMatrix ["A", "B"] [("A-B", v)] = [[1, v], [1 / v, 1]]) ∧
    buildComparisonMatrix ["A", "B"] [("A-B", 0)] = [[1, 1], [1, 1]] := by
  constructor
  · intro v hv
    have h1 : buildComparisonMatrix ["A", "B"] [("A-B", v)]
        = fillPair [("A-B", v)] ["A", "B"] [[1, 1], [1, 1]] 0 1 := rfl
    rw [h1]
    simp only [fillPair]
    have htr : truthyLookup [("A-B", v)]
        (pairKey (["A", "B"].getD 0 "") (["A", "B"].getD 1 "")) = some v := by
      have h0 : truthyLookup [("A-B", v)]
          (pairKey (["A", "B"].getD 0 "") (["A", "B"].getD 1 ""))
          = if v = 0 then none else some v := rfl
      rw [h0, if_neg hv]
    rw [htr]
    rfl
  · rfl

theorem claim_C3_witness :
    buildComparisonMatrix ["A", "B"] [("A-B", -3)] = [[1, -3], [1 / (-3), 1]] :=
  claim_C3_amended.1 (-3) (by norm_num)

/-- C4 (counterexample): a criteria list with duplicate labels is not
rejected: the builder returns the ordinary all-ones 3×3 matrix. -/
theorem claim_C4_counterexample :
    buildComparisonMatrix ["A", "A", "B"] []
      = [[1, 1, 1], [1, 1, 1], [1, 1, 1]] := rfl

/-- C4 (amended): duplicate criterion labels are not rejected — there is no
error path: for `[A, A, B]` and any judgment mapping, the builder returns an
ordinary `3 × 3` matrix. -/
theorem claim_C4_amended (cmp : List (String × ℚ)) :
    (buildComparisonMatrix ["A", "A", "B"] cmp).length = 3 ∧
      (buildComparisonMatrix ["A", "A", "B"] cmp).map List.length = [3, 3, 3] := by
  constructor
  · rw [buildComparisonMatrix_length]
    rfl
  · apply List.ext_getElem
    · rw [List.length_map, buildComparisonMatrix_length]
      rfl
    · intro k h1 h2
      rw [List.getElem_map]
      have hkc : k < (["A", "A", "B"] : List String).length := by
        rw [List.length_map, buildComparisonMatrix_length] at h1
        exact h1
      have hrow := buildComparisonMatrix_row ["A", "A", "B"] cmp hkc
      have hk : k < (buildComparisonMatrix ["A", "A", "B"] cmp).length := by
        rw [List.length_map] at h1
        exact h1
      rw [List.getD_eq_getElem?_getD, List.getElem?_eq_getElem hk, Option.getD_some] at hrow
      have hk3 : k < 3 := hkc
      interval_cases k <;> simpa using hrow

/-- C1: for every matrix with strictly positive entries (`n ≥ 1`),
`calculateWeights` returns exactly the row geometric means normalized by
their sum; every weight is non-negative, the weights sum to exactly `1`
(hence within `1e-9`), and for `n = 1` the result is `[1]`. -/
theorem claim_C1 (m : List (List ℝ)) (h1 : 1 ≤ m.length)
    (hpos : ∀ i j, i < m.length → j < m.length → 0 < ent m i j) :
    (∀ i, i < m.length → (calculateWeights m).getD i 0
        = specGeomMean m i / ∑ k ∈ Finset.range m.length, specGeomMean m k) ∧
    (∀ i, i < m.length → 0 ≤ (calculateWeights m).getD i 0) ∧
    (calculateWeights m).sum = 1 ∧
    (m.length = 1 → calculateWeights m = [1]) := by
  refine ⟨fun i hi => calculateWeights_getD m hi,
    fun i hi => (calculateWeights_pos h1 hpos hi).le,
    calculateWeights_sum h1 hpos, ?_⟩
  intro hn1
  have hlen : (calculateWeights m).length = 1 := by
    rw [calculateWeights_length, hn1]
  have h0 : (calculateWeights m).getD 0 0 = 1 := by
    rw [calculateWeights_getD m (by omega), hn1, Finset.sum_range_one]
    exact div_self (ne_of_gt (specGeomMean_pos hpos (by omega)))
  rcases hL : calculateWeights m with _ | ⟨x, t⟩
  · rw [hL] at hlen
    simp at hlen
  · rw [hL] at hlen h0
    simp only [List.length_cons] at hlen
    have ht : t = [] := List.length_eq_zero.mp (by omega)
    subst ht
    simp only [List.getD_cons_zero] at h0
    rw [h0]

theorem claim_C1_witness :
    calculateWeights [[(2 : ℝ)]] = [1] ∧ (calculateWeights [[(2 : ℝ)]]).sum = 1 := by
  have h := claim_C1 [[(2 : ℝ)]] (by norm_num) (by
    intro i j hi hj
    simp only [List.length_cons, List.length_nil] at hi hj
    have hi0 : i = 0 := by omega
    have hj0 : j = 0 := by omega
    subst hi0
    subst hj0
    show (0 : ℝ) < ent [[2]] 0 0
    norm_num [ent])
  exact ⟨h.2.2.2 rfl, h.2.2.1⟩

/-- C5: for `n ≥ 3` and weights with non-zero entries,
`calculateConsistencyRatio` equals `CI / RI(n)` with
`λmax = (1/n)·Σ_i (Mw)_i / w_i`, `CI = (λmax − n)/(n − 1)` and `RI` the
fixed table `{3: 0.58, …, 10: 1.49}`; for every `n > 10` the fallback
`RI = 1.49` is used and the computation does not fail. -/
theorem claim_C5 (m : List (List ℝ)) (w : List ℝ) (h3 : 3 ≤ m.length)
    (hw : ∀ i, i < m.length → w.getD i 0 ≠ 0) :
    calculateConsistencyRatio m w
      = ((specLambdaMax m w - m.length) / ((m.length : ℝ) - 1)) / specRI m.length ∧
    (10 < m.length → specRI m.length = 1.49) := by
  constructor
  · unfold calculateConsistencyRatio
    rw [if_neg (by omega)]
    rw [calculateLambdaMax_eq_spec, randomIndexOrDefault_eq_specRI h3]
    rfl
  · intro h10
    unfold specRI
    rw [if_neg (by omega), if_neg (by omega), if_neg (by omega), if_neg (by omega),
      if_neg (by omega), if_neg (by omega), if_neg (by omega)]

theorem claim_C5_witness :
    calculateConsistencyRatio [[(1 : ℝ), 1, 1], [1, 1, 1], [1, 1, 1]] [1, 1, 1]
      = ((specLambdaMax [[(1 : ℝ), 1, 1], [1, 1, 1], [1, 1, 1]] [1, 1, 1]
            - ([[(1 : ℝ), 1, 1], [1, 1, 1], [1, 1, 1]] : List (List ℝ)).length)
          / ((([[(1 : ℝ), 1, 1], [1, 1, 1], [1, 1, 1]] : List (List ℝ)).length : ℝ) - 1))
        / specRI ([[(1 : ℝ), 1, 1], [1, 1, 1], [1, 1, 1]] : List (List ℝ)).length :=
  (claim_C5 [[(1 : ℝ), 1, 1], [1, 1, 1], [1, 1, 1]] [1, 1, 1] (by norm_num) (by
    intro i hi
    simp only [List.length_cons, List.length_nil] at hi
    interval_cases i <;> norm_num)).1

/-- C7: for every criteria list (`n ≥ 1`) and judgment mapping with strictly
positive values, the consistency ratio returned by `calculateAHPWeights` is
non-negative, and the returned `isConsistent` flag holds exactly when
`CR < 0.1`. -/
theorem claim_C7 (c : List String) (cmp : List (String × ℚ)) (h1 : 1 ≤ c.length)
    (hpos : ∀ p ∈ cmp, 0 < p.2) :
    0 ≤ (calculateAHPWeights c cmp).consistencyRatio ∧
    ((calculateAHPWeights c cmp).isConsistent
      ↔ (calculateAHPWeights c cmp).consistencyRatio < 0.1) := by
  constructor
  · rw [calculateAHPWeights_cr]
    exact ahp_cr_nonneg c h1 hpos
  · exact calculateAHPWeights_flag c cmp

theorem claim_C7_witness :
    0 ≤ (calculateAHPWeights ["A", "B", "C"] [("A-B", 5), ("B-C", 3)]).consistencyRatio ∧
    ((calculateAHPWeights ["A", "B", "C"] [("A-B", 5), ("B-C", 3)]).isConsistent
      ↔ (calculateAHPWeights ["A", "B", "C"] [("A-B", 5), ("B-C", 3)]).consistencyRatio
          < 0.1) :=
  claim_C7 ["A", "B", "C"] [("A-B", 5), ("B-C", 3)] (by norm_num) (by
    intro p hp
    rcases List.mem_cons.mp hp with he | he
    · rw [he]; norm_num
    · rcases List.mem_cons.mp he with he2 | he2
      · rw [he2]; norm_num
      · exact absurd he2 (List.not_mem_nil _))

/-- C9: on the `calculateAHPWeights` path with strictly positive looked-up
judgment values, every weight produced by `calculateWeights` on the built
matrix is strictly positive, the normalization denominator (the sum of the
row geometric means) is strictly positive, and the per-row denominators
`weights[i]` used by `calculateLambdaMax` are non-zero — so no division by
zero occurs. -/
theorem claim_C9 (c : List String) (cmp : List (String × ℚ)) (h1 : 1 ≤ c.length)
    (hpos : ∀ p ∈ cmp, 0 < p.2) :
    0 < ∑ k ∈ Finset.range (toRealMatrix (buildComparisonMatrix c cmp)).length,
        specGeomMean (toRealMatrix (buildComparisonMatrix c cmp)) k ∧
    (∀ i, i < c.length →
      0 < (calculateWeights (toRealMatrix (buildComparisonMatrix c cmp))).getD i 0) ∧
    (∀ i, i < c.length →
      (calculateWeights (toRealMatrix (buildComparisonMatrix c cmp))).getD i 0 ≠ 0) := by
  have hlen := length_buildReal c cmp
  have hent : ∀ i j, i < (toRealMatrix (buildComparisonMatrix c cmp)).length →
      j < (toRealMatrix (buildComparisonMatrix c cmp)).length →
      0 < ent (toRealMatrix (buildComparisonMatrix c cmp)) i j := by
    intro i j hi hj
    rw [hlen] at hi hj
    exact entBuild_pos c hpos hi hj
  have hw : ∀ i, i < c.length →
      0 < (calculateWeights (toRealMatrix (buildComparisonMatrix c cmp))).getD i 0 := by
    intro i hi
    exact calculateWeights_pos (by omega) hent (by omega)
  exact ⟨sum_specGeomMean_pos (by omega) hent, hw, fun i hi => (hw i hi).ne'⟩

theorem claim_C9_witness :
    0 < (calculateWeights (toRealMatrix (buildComparisonMatrix ["A", "B"]
        [("A-B", 3)]))).getD 0 0 ∧
    (calculateWeights (toRealMatrix (buildComparisonMatrix ["A", "B"]
        [("A-B", 3)]))).getD 1 0 ≠ 0 := by
  have h := claim_C9 ["A", "B"] [("A-B", 3)] (by norm_num) (by
    intro p hp
    rcases List.mem_cons.mp hp with he | he
    · rw [he]; norm_num
    · exact absurd he (List.not_mem_nil _))
  exact ⟨h.2.1 0 (by norm_num), h.2.2 1 (by norm_num)⟩

/-! ## Infrastructure: order invariance -/

theorem ahp_weights_getD (c : List String) (cmp : List (String × ℚ))
    (hnd : c.Nodup) {k : ℕ} (hk : k < c.length) :
    (calculateAHPWeights c cmp).weights (c.getD k "")
      = some ((calculateWeights (toRealMatrix (buildComparisonMatrix c cmp))).getD k 0) := by
  have h := calculateAHPWeights_weights_get c cmp hnd ⟨k, hk⟩
  have he : c.get ⟨k, hk⟩ = c.getD k "" := by
    rw [List.get_eq_getElem, List.getD_eq_getElem?_getD, List.getElem?_eq_getElem hk]
    rfl
  rw [← he]
  exact h

theorem build_entry_nameForm (c : List String) (cmp : List (String × ℚ))
    (hH : ∀ i < c.length, ∀ j < c.length, i ≠ j → ∀ v w : ℚ,
      truthyLookup cmp (pairKey (c.getD i "") (c.getD j "")) = some v →
      truthyLookup cmp (pairKey (c.getD j "") (c.getD i "")) = some w → v * w = 1) :
    ∀ i j, i < c.length → j < c.length →
      entQ (buildComparisonMatrix c cmp) i j
        = if i = j then 1 else fwdVal cmp (c.getD i "") (c.getD j "") := by
  intro i j hi hj
  rcases lt_trichotomy i j with h | h | h
  · rw [if_neg (by omega), (buildComparisonMatrix_entry c cmp h hj).1]
  · subst h
    rw [if_pos rfl, buildComparisonMatrix_diag c cmp hi]
  · rw [if_neg (by omega), (buildComparisonMatrix_entry c cmp h hi).2]
    rcases h1 : truthyLookup cmp (pairKey (c.getD j "") (c.getD i "")) with _ | v
    · rcases h2 : truthyLookup cmp (pairKey (c.getD i "") (c.getD j "")) with _ | w
      · rw [bwdVal_of_none h1 h2, fwdVal_of_none h2 h1]
      · rw [bwdVal_of_rev h1 h2, fwdVal_of_fwd h2]
    · rcases h2 : truthyLookup cmp (pairKey (c.getD i "") (c.getD j "")) with _ | w
      · rw [bwdVal_of_fwd h1, fwdVal_of_rev h2 h1]
      · have hvw := hH j hj i hi (by omega) v w h1 h2
        have hv0 := (truthyLookup_mem h1).2
        rw [bwdVal_of_fwd h1, fwdVal_of_fwd h2, div_eq_iff hv0]
        linear_combination -hvw

theorem permuteList_length (c : List String) (σ : Equiv.Perm (Fin c.length)) :
    (permuteList c σ).length = c.length :=
  List.length_ofFn _

theorem permuteList_getD (c : List String) (σ : Equiv.Perm (Fin c.length))
    {k : ℕ} (hk : k < c.length) :
    (permuteList c σ).getD k "" = c.getD ((σ ⟨k, hk⟩ : Fin c.length) : ℕ) "" := by
  have hk' : k < (permuteList c σ).length := by rw [permuteList_length]; exact hk
  rw [List.getD_eq_getElem?_getD, List.getElem?_eq_getElem hk', Option.getD_some]
  have hs : ((σ ⟨k, hk⟩ : Fin c.length) : ℕ) < c.length := (σ ⟨k, hk⟩).isLt
  rw [List.getD_eq_getElem?_getD, List.getElem?_eq_getElem hs, Option.getD_some]
  simp only [permuteList, List.getElem_ofFn]
  rw [List.get_eq_getElem]

theorem permuteList_nodup (c : List String) (σ : Equiv.Perm (Fin c.length))
    (hnd : c.Nodup) : (permuteList c σ).Nodup := by
  rw [permuteList, List.nodup_ofFn]
  intro a b hab
  have := (hnd.get_inj_iff).mp hab
  exact σ.injective this

theorem permuteList_hH (c : List String) (cmp : List (String × ℚ))
    (σ : Equiv.Perm (Fin c.length))
    (hH : ∀ i < c.length, ∀ j < c.length, i ≠ j → ∀ v w : ℚ,
      truthyLookup cmp (pairKey (c.getD i "") (c.getD j "")) = some v →
      truthyLookup cmp (pairKey (c.getD j "") (c.getD i "")) = some w → v * w = 1) :
    ∀ i < (permuteList c σ).length, ∀ j < (permuteList c σ).length, i ≠ j → ∀ v w : ℚ,
      truthyLookup cmp (pairKey ((permuteList c σ).getD i "")
        ((permuteList c σ).getD j "")) = some v →
      truthyLookup cmp (pairKey ((permuteList c σ).getD j "")
        ((permuteList c σ).getD i "")) = some w → v * w = 1 := by
  intro i hi j hj hij v w h1 h2
  rw [permuteList_length] at hi hj
  rw [permuteList_getD c σ hi, permuteList_getD c σ hj] at h1 h2
  have hne : ((σ ⟨i, hi⟩ : Fin c.length) : ℕ) ≠ ((σ ⟨j, hj⟩ : Fin c.length) : ℕ) := by
    intro he
    apply hij
    have he1 : σ ⟨i, hi⟩ = σ ⟨j, hj⟩ := Fin.ext he
    have he2 := σ.injective he1
    exact congrArg Fin.val he2
  exact hH _ (σ ⟨i, hi⟩).isLt _ (σ ⟨j, hj⟩).isLt hne v w h1 h2

theorem permuted_entry (c : List String) (cmp : List (String × ℚ))
    (σ : Equiv.Perm (Fin c.length))
    (hH : ∀ i < c.length, ∀ j < c.length, i ≠ j → ∀ v w : ℚ,
      truthyLookup cmp (pairKey (c.getD i "") (c.getD j "")) = some v →
      truthyLookup cmp (pairKey (c.getD j "") (c.getD i "")) = some w → v * w = 1) :
    ∀ (i j : Fin c.length),
      entQ (buildComparisonMatrix (permuteList c σ) cmp) i j
        = entQ (buildComparisonMatrix c cmp) (σ i) (σ j) := by
  intro i j
  have hi' : (i : ℕ) < (permuteList c σ).length := by
    rw [permuteList_length]; exact i.isLt
  have hj' : (j : ℕ) < (permuteList c σ).length := by
    rw [permuteList_length]; exact j.isLt
  rw [build_entry_nameForm (permuteList c σ) cmp (permuteList_hH c cmp σ hH) i j hi' hj',
    build_entry_nameForm c cmp hH (σ i) (σ j) (σ i).isLt (σ j).isLt,
    permuteList_getD c σ i.isLt, permuteList_getD c σ j.isLt]
  simp only [Fin.eta]
  by_cases hij : (i : ℕ) = (j : ℕ)
  · have he : i = j := Fin.ext hij
    subst he
    rw [if_pos rfl, if_pos rfl]
  · rw [if_neg hij,
      if_neg (fun he => hij (congrArg Fin.val (σ.injective (Fin.ext he))))]

theorem permuted_gm (c : List String) (cmp : List (String × ℚ))
    (σ : Equiv.Perm (Fin c.length))
    (hH : ∀ i < c.length, ∀ j < c.length, i ≠ j → ∀ v w : ℚ,
      truthyLookup cmp (pairKey (c.getD i "") (c.getD j "")) = some v →
      truthyLookup cmp (pairKey (c.getD j "") (c.getD i "")) = some w → v * w = 1) :
    ∀ k : Fin c.length,
      specGeomMean (toRealMatrix (buildComparisonMatrix (permuteList c σ) cmp)) k
        = specGeomMean (toRealMatrix (buildComparisonMatrix c cmp)) (σ k) := by
  intro k
  have hl1 : (toRealMatrix (buildComparisonMatrix (permuteList c σ) cmp)).length
      = c.length := by
    rw [length_buildReal, permuteList_length]
  have hl2 : (toRealMatrix (buildComparisonMatrix c cmp)).length = c.length :=
    length_buildReal c cmp
  unfold specGeomMean
  rw [hl1, hl2]
  congr 1
  rw [← Fin.prod_univ_eq_prod_range
      (fun j => ent (toRealMatrix (buildComparisonMatrix (permuteList c σ) cmp)) k j)
      c.length,
    ← Fin.prod_univ_eq_prod_range
      (fun j => ent (toRealMatrix (buildComparisonMatrix c cmp)) (σ k) j) c.length,
    ← Equiv.prod_comp σ
      (fun j : Fin c.length => ent (toRealMatrix (buildComparisonMatrix c cmp)) (σ k) j)]
  apply Finset.prod_congr rfl
  intro j _
  rw [ent_toRealMatrix, ent_toRealMatrix, permuted_entry c cmp σ hH k j]

theorem permuted_sumGm (c : List String) (cmp : List (String × ℚ))
    (σ : Equiv.Perm (Fin c.length))
    (hH : ∀ i < c.length, ∀ j < c.length, i ≠ j → ∀ v w : ℚ,
      truthyLookup cmp (pairKey (c.getD i "") (c.getD j "")) = some v →
      truthyLookup cmp (pairKey (c.getD j "") (c.getD i "")) = some w → v * w = 1) :
    ∑ k ∈ Finset.range c.length,
        specGeomMean (toRealMatrix (buildComparisonMatrix (permuteList c σ) cmp)) k
      = ∑ k ∈ Finset.range c.length,
        specGeomMean (toRealMatrix (buildComparisonMatrix c cmp)) k := by
  rw [← Fin.sum_univ_eq_sum_range
      (fun k => specGeomMean (toRealMatrix (buildComparisonMatrix (permuteList c σ) cmp)) k)
      c.length,
    ← Fin.sum_univ_eq_sum_range
      (fun k => specGeomMean (toRealMatrix (buildComparisonMatrix c cmp)) k) c.length,
    ← Equiv.sum_comp σ
      (fun k : Fin c.length => specGeomMean (toRealMatrix (buildComparisonMatrix c cmp)) k)]
  apply Finset.sum_congr rfl
  intro k _
  exact permuted_gm c cmp σ hH k

theorem permuted_weight (c : List String) (cmp : List (String × ℚ))
    (σ : Equiv.Perm (Fin c.length))
    (hH : ∀ i < c.length, ∀ j < c.length, i ≠ j → ∀ v w : ℚ,
      truthyLookup cmp (pairKey (c.getD i "") (c.getD j "")) = some v →
      truthyLookup cmp (pairKey (c.getD j "") (c.getD i "")) = some w → v * w = 1) :
    ∀ k : Fin c.length,
      (calculateWeights (toRealMatrix (buildComparisonMatrix (permuteList c σ) cmp))).getD k 0
        = (calculateWeights (toRealMatrix (buildComparisonMatrix c cmp))).getD (σ k) 0 := by
  intro k
  have hl1 : (toRealMatrix (buildComparisonMatrix (permuteList c σ) cmp)).length
      = c.length := by
    rw [length_buildReal, permuteList_length]
  have hl2 : (toRealMatrix (buildComparisonMatrix c cmp)).length = c.length :=
    length_buildReal c cmp
  rw [calculateWeights_getD _ (by rw [hl1]; exact k.isLt),
    calculateWeights_getD _ (by rw [hl2]; exact (σ k).isLt), hl1, hl2,
    permuted_gm c cmp σ hH k, permuted_sumGm c cmp σ hH]

theorem sum_ratio_reindex (n : ℕ) (σ : Equiv.Perm (Fin n))
    (E E' : ℕ → ℕ → ℝ) (w w' : ℕ → ℝ)
    (hE : ∀ i j : Fin n, E' i j = E (σ i) (σ j))
    (hw : ∀ i : Fin n, w' i = w (σ i)) :
    ∑ i ∈ Finset.range n, (∑ j ∈ Finset.range n, E' i j * w' j) / w' i
      = ∑ i ∈ Finset.range n, (∑ j ∈ Finset.range n, E i j * w j) / w i := by
  have inner : ∀ i : Fin n,
      (∑ j ∈ Finset.range n, E' i j * w' j)
        = ∑ j ∈ Finset.range n, E (σ i) j * w j := by
    intro i
    rw [← Fin.sum_univ_eq_sum_range (fun j => E' i j * w' j) n,
      ← Fin.sum_univ_eq_sum_range (fun j => E (σ i) j * w j) n,
      ← Equiv.sum_comp σ (fun j : Fin n => E (σ i) j * w j)]
    apply Finset.sum_congr rfl
    intro j _
    rw [hE i j, hw j]
  rw [← Fin.sum_univ_eq_sum_range (fun i => (∑ j ∈ Finset.range n, E' i j * w' j) / w' i) n,
    ← Fin.sum_univ_eq_sum_range (fun i => (∑ j ∈ Finset.range n, E i j * w j) / w i) n,
    ← Equiv.sum_comp σ (fun i : Fin n => (∑ j ∈ Finset.range n, E i j * w j) / w i)]
  apply Finset.sum_congr rfl
  intro i _
  rw [inner i, hw i]

theorem permuted_lambda (c : List String) (cmp : List (String × ℚ))
    (σ : Equiv.Perm (Fin c.length))
    (hH : ∀ i < c.length, ∀ j < c.length, i ≠ j → ∀ v w : ℚ,
      truthyLookup cmp (pairKey (c.getD i "") (c.getD j "")) = some v →
      truthyLookup cmp (pairKey (c.getD j "") (c.getD i "")) = some w → v * w = 1) :
    calculateLambdaMax (toRealMatrix (buildComparisonMatrix (permuteList c σ) cmp))
        (calculateWeights (toRealMatrix (buildComparisonMatrix (permuteList c σ) cmp)))
      = calculateLambdaMax (toRealMatrix (buildComparisonMatrix c cmp))
        (calculateWeights (toRealMatrix (buildComparisonMatrix c cmp))) := by
  have hl1 : (toRealMatrix (buildComparisonMatrix (permuteList c σ) cmp)).length
      = c.length := by
    rw [length_buildReal, permuteList_length]
  have hl2 : (toRealMatrix (buildComparisonMatrix c cmp)).length = c.length :=
    length_buildReal c cmp
  rw [calculateLambdaMax_eq_spec, calculateLambdaMax_eq_spec]
  unfold specLambdaMax
  rw [hl1, hl2]
  congr 1
  exact sum_ratio_reindex c.length σ
    (fun i j => ent (toRealMatrix (buildComparisonMatrix c cmp)) i j)
    (fun i j => ent (toRealMatrix (buildComparisonMatrix (permuteList c σ) cmp)) i j)
    (fun i => (calculateWeights (toRealMatrix (buildComparisonMatrix c cmp))).getD i 0)
    (fun i => (calculateWeights (toRealMatrix
        (buildComparisonMatrix (permuteList c σ) cmp))).getD i 0)
    (fun i j => by
      show ent (toRealMatrix (buildComparisonMatrix (permuteList c σ) cmp)) i j
          = ent (toRealMatrix (buildComparisonMatrix c cmp)) (σ i) (σ j)
      rw [ent_toRealMatrix, ent_toRealMatrix]
      exact_mod_cast permuted_entry c cmp σ hH i j)
    (fun i => permuted_weight c cmp σ hH i)

theorem permuted_cr (c : List String) (cmp : List (String × ℚ))
    (σ : Equiv.Perm (Fin c.length))
    (hH : ∀ i < c.length, ∀ j < c.length, i ≠ j → ∀ v w : ℚ,
      truthyLookup cmp (pairKey (c.getD i "") (c.getD j "")) = some v →
      truthyLookup cmp (pairKey (c.getD j "") (c.getD i "")) = some w → v * w = 1) :
    calculateConsistencyRatio (toRealMatrix (buildComparisonMatrix (permuteList c σ) cmp))
        (calculateWeights (toRealMatrix (buildComparisonMatrix (permuteList c σ) cmp)))
      = calculateConsistencyRatio (toRealMatrix (buildComparisonMatrix c cmp))
        (calculateWeights (toRealMatrix (buildComparisonMatrix c cmp))) := by
  have hl1 : (toRealMatrix (buildComparisonMatrix (permuteList c σ) cmp)).length
      = c.length := by
    rw [length_buildReal, permuteList_length]
  have hl2 : (toRealMatrix (buildComparisonMatrix c cmp)).length = c.length :=
    length_buildReal c cmp
  unfold calculateConsistencyRatio
  rw [hl1, hl2]
  by_cases h3 : c.length < 3
  · rw [if_pos h3, if_pos h3]
  · rw [if_neg h3, if_neg h3, permuted_lambda c cmp σ hH]

/-- C8 (amended): for distinct criterion labels, and provided no unordered
pair of criteria carries truthy judgments in both directions with
non-reciprocal values (whenever both directions are truthy, with values `v`
and `w`, they satisfy `v * w = 1`; pairs judged in at most one direction
satisfy this vacuously), permuting the criterion order (with the name-based
judgment keys unchanged) yields the same consistency ratio and the same
weight value for each criterion name. -/
theorem claim_C8_amended (c : List String) (cmp : List (String × ℚ))
    (σ : Equiv.Perm (Fin c.length)) (hnd : c.Nodup)
    (hH : ∀ i < c.length, ∀ j < c.length, i ≠ j → ∀ v w : ℚ,
      truthyLookup cmp (pairKey (c.getD i "") (c.getD j "")) = some v →
      truthyLookup cmp (pairKey (c.getD j "") (c.getD i "")) = some w → v * w = 1) :
    (calculateAHPWeights (permuteList c σ) cmp).consistencyRatio
      = (calculateAHPWeights c cmp).consistencyRatio ∧
    ∀ name, (calculateAHPWeights (permuteList c σ) cmp).weights name
      = (calculateAHPWeights c cmp).weights name := by
  constructor
  · rw [calculateAHPWeights_cr, calculateAHPWeights_cr]
    exact permuted_cr c cmp σ hH
  · intro name
    by_cases hmem : name ∈ c
    · obtain ⟨k, hget⟩ := List.mem_iff_get.mp hmem
      have hkD : c.getD (k : ℕ) "" = name := by
        rw [List.getD_eq_getElem?_getD, List.getElem?_eq_getElem k.isLt, Option.getD_some,
          ← List.get_eq_getElem]
        exact hget
      have hinvlt : ((σ.symm k : Fin c.length) : ℕ) < c.length := (σ.symm k).isLt
      have hpD : (permuteList c σ).getD ((σ.symm k : Fin c.length) : ℕ) "" = name := by
        rw [permuteList_getD c σ hinvlt]
        simp only [Fin.eta, Equiv.apply_symm_apply]
        exact hkD
      have h1 := ahp_weights_getD c cmp hnd k.isLt
      rw [hkD] at h1
      have h2 := ahp_weights_getD (permuteList c σ) cmp (permuteList_nodup c σ hnd)
        (show ((σ.symm k : Fin c.length) : ℕ) < (permuteList c σ).length by
          rw [permuteList_length]; exact hinvlt)
      rw [hpD] at h2
      rw [h1, h2, permuted_weight c cmp σ hH (σ.symm k)]
      simp only [Equiv.apply_symm_apply]
    · have hmem' : name ∉ permuteList c σ := by
        intro hin
        rw [permuteList, List.mem_ofFn] at hin
        obtain ⟨k, hk⟩ := hin
        have : c.get (σ k) ∈ c := by
          rw [List.get_eq_getElem]
          exact List.getElem_mem _
        exact hmem (hk ▸ this)
      rw [calculateAHPWeights_weights_not_mem _ _ hmem',
        calculateAHPWeights_weights_not_mem _ _ hmem]

theorem claim_C8_witness :
    (calculateAHPWeights (permuteList ["A", "B"]
        (Equiv.swap ⟨0, by norm_num⟩ ⟨1, by norm_num⟩))
        [("A-B", 1), ("B-A", 1)]).consistencyRatio
      = (calculateAHPWeights ["A", "B"] [("A-B", 1), ("B-A", 1)]).consistencyRatio :=
  (claim_C8_amended ["A", "B"] [("A-B", 1), ("B-A", 1)]
    (Equiv.swap ⟨0, by norm_num⟩ ⟨1, by norm_num⟩) (by decide) (by
      intro i hi j hj hij v w h1 h2
      have hi2 : i < 2 := hi
      have hj2 : j < 2 := hj
      interval_cases i <;> interval_cases j
      · exact absurd rfl hij
      · rw [show truthyLookup [("A-B", (1 : ℚ)), ("B-A", 1)]
            (pairKey ((["A", "B"] : List String).getD 0 "")
              ((["A", "B"] : List String).getD 1 "")) = some 1 from rfl] at h1
        rw [show truthyLookup [("A-B", (1 : ℚ)), ("B-A", 1)]
            (pairKey ((["A", "B"] : List String).getD 1 "")
              ((["A", "B"] : List String).getD 0 "")) = some 1 from rfl] at h2
        simp only [Option.some.injEq] at h1 h2
        rw [← h1, ← h2]
        norm_num
      · rw [show truthyLookup [("A-B", (1 : ℚ)), ("B-A", 1)]
            (pairKey ((["A", "B"] : List String).getD 1 "")
              ((["A", "B"] : List String).getD 0 "")) = some 1 from rfl] at h1
        rw [show truthyLookup [("A-B", (1 : ℚ)), ("B-A", 1)]
            (pairKey ((["A", "B"] : List String).getD 0 "")
              ((["A", "B"] : List String).getD 1 "")) = some 1 from rfl] at h2
        simp only [Option.some.injEq] at h1 h2
        rw [← h1, ← h2]
        norm_num
      · exact absurd rfl hij)).1

theorem rpow_four_half : (4 : ℝ) ^ ((1 : ℝ) / 2) = 2 := by
  have h4 : (4 : ℝ) = 2 ^ (2 : ℕ) := by norm_num
  rw [h4, ← Real.rpow_natCast 2 2, ← Real.rpow_mul (by norm_num : (0 : ℝ) ≤ 2)]
  rw [show ((2 : ℕ) : ℝ) * ((1 : ℝ) / 2) = 1 by push_cast; ring, Real.rpow_one]

theorem rpow_quarter_half : ((1 : ℝ) / 4) ^ ((1 : ℝ) / 2) = 1 / 2 := by
  have h : (1 : ℝ) / 4 = (4 : ℝ)⁻¹ := by norm_num
  rw [h, Real.inv_rpow (by norm_num : (0 : ℝ) ≤ 4), rpow_four_half]
  norm_num

theorem cex_gm0 :
    specGeomMean (toRealMatrix [[(1 : ℚ), 4], [1/4, 1]]) 0 = 2 := by
  unfold specGeomMean
  have hlen : (toRealMatrix [[(1 : ℚ), 4], [1/4, 1]]).length = 2 := rfl
  rw [hlen]
  have hprod : ∏ j ∈ Finset.range 2, ent (toRealMatrix [[(1 : ℚ), 4], [1/4, 1]]) 0 j
      = 4 := by
    rw [Finset.prod_range_succ, Finset.prod_range_one, ent_toRealMatrix, ent_toRealMatrix,
      show entQ [[(1 : ℚ), 4], [1/4, 1]] 0 0 = 1 from rfl,
      show entQ [[(1 : ℚ), 4], [1/4, 1]] 0 1 = 4 from rfl]
    norm_num
  rw [hprod, show ((1 : ℝ) / ((2 : ℕ) : ℝ)) = (1 : ℝ) / 2 by norm_num]
  exact rpow_four_half

theorem cex_gm1 :
    specGeomMean (toRealMatrix [[(1 : ℚ), 4], [1/4, 1]]) 1 = 1 / 2 := by
  unfold specGeomMean
  have hlen : (toRealMatrix [[(1 : ℚ), 4], [1/4, 1]]).length = 2 := rfl
  rw [hlen]
  have hprod : ∏ j ∈ Finset.range 2, ent (toRealMatrix [[(1 : ℚ), 4], [1/4, 1]]) 1 j
      = 1 / 4 := by
    rw [Finset.prod_range_succ, Finset.prod_range_one, ent_toRealMatrix, ent_toRealMatrix,
      show entQ [[(1 : ℚ), 4], [1/4, 1]] 1 0 = 1/4 from rfl,
      show entQ [[(1 : ℚ), 4], [1/4, 1]] 1 1 = 1 from rfl]
    push_cast
    norm_num
  rw [hprod, show ((1 : ℝ) / ((2 : ℕ) : ℝ)) = (1 : ℝ) / 2 by norm_num]
  exact rpow_quarter_half

theorem cex_weight0 :
    (calculateWeights (toRealMatrix [[(1 : ℚ), 4], [1/4, 1]])).getD 0 0 = 4 / 5 := by
  have hlen : (toRealMatrix [[(1 : ℚ), 4], [1/4, 1]]).length = 2 := rfl
  rw [calculateWeights_getD _ (by rw [hlen]; norm_num), hlen,
    Finset.sum_range_succ, Finset.sum_range_one, cex_gm0, cex_gm1]
  norm_num

theorem cex_weight1 :
    (calculateWeights (toRealMatrix [[(1 : ℚ), 4], [1/4, 1]])).getD 1 0 = 1 / 5 := by
  have hlen : (toRealMatrix [[(1 : ℚ), 4], [1/4, 1]]).length = 2 := rfl
  rw [calculateWeights_getD _ (by rw [hlen]; norm_num), hlen,
    Finset.sum_range_succ, Finset.sum_range_one, cex_gm0, cex_gm1]
  norm_num

/-- C8 (counterexample): when both directions of a pair are supplied with
values that are not reciprocals of each other, the builder prefers the
forward key of the *current* order, so permuting the criteria changes the
weights: with judgments `{A-B: 4, B-A: 4}`, criterion `A` gets weight `4/5`
under the order `[A, B]` but `1/5` under the order `[B, A]`. -/
theorem claim_C8_counterexample :
    (calculateAHPWeights ["B", "A"] [("A-B", 4), ("B-A", 4)]).weights "A"
      ≠ (calculateAHPWeights ["A", "B"] [("A-B", 4), ("B-A", 4)]).weights "A" := by
  have hb1 : buildComparisonMatrix ["A", "B"] [("A-B", 4), ("B-A", 4)]
      = [[1, 4], [1/4, 1]] := rfl
  have hb2 : buildComparisonMatrix ["B", "A"] [("A-B", 4), ("B-A", 4)]
      = [[1, 4], [1/4, 1]] := rfl
  have h1 := ahp_weights_getD ["A", "B"] [("A-B", 4), ("B-A", 4)] (by decide)
    (show (0 : ℕ) < (["A", "B"] : List String).length by decide)
  have h2 := ahp_weights_getD ["B", "A"] [("A-B", 4), ("B-A", 4)] (by decide)
    (show (1 : ℕ) < (["B", "A"] : List String).length by decide)
  rw [hb1] at h1
  rw [hb2] at h2
  rw [show (["A", "B"] : List String).getD 0 "" = "A" from rfl] at h1
  rw [show (["B", "A"] : List String).getD 1 "" = "A" from rfl] at h2
  rw [h1, h2, cex_weight0, cex_weight1]
  simp only [ne_eq, Option.some.injEq]
  norm_num
